import Mathlib

/-!
Verification of the Spotify-to-YouTube playlist converter against its
specification.  The Python sources (src/utils.py, src/spotify_client.py,
src/youtube_client.py, src/app.py) are shallowly embedded: strings become
`List Char` or `String`, provider calls become explicit oracles passed in
as parameters, and the server-sent-event generator becomes a function
producing a list of structured events together with the trace of provider
calls it issues.
-/

namespace SpotifyToYouTube

/-- ASCII alphanumeric test: the semantics of the character class
`[a-zA-Z0-9]` used by the regular expressions in `src/utils.py`. -/
def isAlnumAscii (c : Char) : Bool :=
  ('a' ≤ c && c ≤ 'z') || ('A' ≤ c && c ≤ 'Z') || ('0' ≤ c && c ≤ '9')

/-- Whitespace test: the semantics of the character class `\s`
(space, tab, newline, carriage return, vertical tab, form feed). -/
def isSpaceAscii (c : Char) : Bool :=
  c = ' ' || c = '\t' || c = '\n' || c = '\r' || c = '\x0b' || c = '\x0c'

/-- Word-character test: the semantics of `\w` (alphanumeric or underscore). -/
def isWordAscii (c : Char) : Bool :=
  isAlnumAscii c || c = '_'

/-- Attempt to match the regular expression
`(?:playlist/|playlist:)([a-zA-Z0-9]` repeated 22 times `)` at the head of
`l`, returning the captured 22-character group, as `re.search` does at one
starting position (from `src/utils.py, extract_playlist_id_from_url`). -/
def matchPlaylistAt (l : List Char) : Option (List Char) :=
  if (l.take 9 = "playlist/".data ∨ l.take 9 = "playlist:".data) ∧
      22 ≤ (l.drop 9).length ∧ ((l.drop 9).take 22).all isAlnumAscii then
    some ((l.drop 9).take 22)
  else none

/-- Scan the input left to right, returning the leftmost match of the
playlist-id pattern: the semantics of `re.search` in
`extract_playlist_id_from_url`. -/
def searchPlaylistPat : List Char → Option (List Char)
  | [] => none
  | c :: tl =>
    match matchPlaylistAt (c :: tl) with
    | some m => some m
    | none => searchPlaylistPat tl

/-- Embedding of `src/utils.py, extract_playlist_id_from_url` restricted to
string inputs: first `re.search` for `playlist/` or `playlist:` followed by
22 alphanumerics, then the bare-identifier `re.fullmatch` check. -/
def extract_playlist_id_from_url (url : List Char) : Option (List Char) :=
  match searchPlaylistPat url with
  | some m => some m
  | none =>
    if url.length = 22 ∧ url.all isAlnumAscii then some url else none

/-- Specification-side predicate for C7: the input contains `playlist/`
or `playlist:` immediately followed by a 22-character alphanumeric
identifier. -/
def containsPlaylistRef (l : List Char) : Prop :=
  ∃ pre pid post,
    (l = pre ++ "playlist/".data ++ pid ++ post ∨ l = pre ++ "playlist:".data ++ pid ++ post)
    ∧ pid.length = 22 ∧ pid.all isAlnumAscii = true

/-- Characters kept by the first substitution in `sanitize_filename`:
the complement of `[^\w\s\-\(\)]`. -/
def keepSanitize (c : Char) : Bool :=
  isWordAscii c || isSpaceAscii c || c = '-' || c = '(' || c = ')'

/-- Worker for `collapseWs`: `prevWs` records whether the previous input
character belonged to a whitespace run that has already emitted its single
space. -/
def collapseWsAux (prevWs : Bool) : List Char → List Char
  | [] => []
  | c :: tl =>
    if isSpaceAscii c then
      if prevWs then collapseWsAux true tl
      else ' ' :: collapseWsAux true tl
    else c :: collapseWsAux false tl

/-- Replace every maximal run of whitespace by a single space: the
semantics of `re.sub` with pattern `\s+` and replacement a single space. -/
def collapseWs (l : List Char) : List Char :=
  collapseWsAux false l

/-- Remove leading and trailing whitespace: Python `str.strip()`. -/
def stripWs (l : List Char) : List Char :=
  ((l.dropWhile isSpaceAscii).reverse.dropWhile isSpaceAscii).reverse

/-- A Python value passed to `sanitize_filename`: either a string or a
value of any other type (the `isinstance(name, str)` check only looks at
which side it is). -/
inductive PyVal where
  | str (s : List Char)
  | nonStr
deriving DecidableEq

/-- Embedding of `src/utils.py, sanitize_filename`: non-strings map to the
fixed fallback text; strings are filtered to the allowed characters, have
whitespace runs collapsed to single spaces, are stripped, and are truncated
to 100 characters. -/
def sanitize_filename : PyVal → List Char
  | .nonStr => "Invalid Playlist Name".data
  | .str s => (stripWs (collapseWs (s.filter keepSanitize))).take 100

/-- Lowercasing of one character, used to embed Python's `.lower()` on the
decoded error contents in `src/youtube_client.py` (`Char.toLower` lowers
ASCII uppercase letters and leaves everything else unchanged). -/
def lowerStr (s : List Char) : List Char :=
  s.map Char.toLower

/-- Test whether `pat` occurs at the head of `l`. -/
def isPre : List Char → List Char → Bool
  | [], _ => true
  | _ :: _, [] => false
  | c :: p, a :: l => c == a && isPre p l

/-- Test whether `pat` occurs as a contiguous substring of `l`: the
semantics of the Python `in` operator on strings, used by the error-content
checks in `src/youtube_client.py` and `src/app.py`. -/
def containsSub (pat : List Char) : List Char → Bool
  | [] => pat.isEmpty
  | a :: l => isPre pat (a :: l) || containsSub pat l

/-- Outcome of one provider API request, as seen by the embedded clients:
a successful response carrying a payload, an `HttpError` with a status code
and decoded content, or any other exception. -/
inductive ApiResult (α : Type) where
  | ok (val : α)
  | httpError (status : Nat) (content : List Char)
  | otherError

/-- Exception that the embedded YouTube client re-raises out of a method
(the `raise` statements on the quota branches of
`search_video_with_keywords` and `add_video_to_playlist`). -/
inductive YtExc where
  | quotaHttp (status : Nat) (content : List Char)

/-- The prioritized query list built by `search_video_with_keywords`
(src/youtube_client.py lines 167-172): `base + " Official"` first, then
`base + " " + kw` for each non-empty keyword in order, then the bare base
query when the keyword list contains the empty string or is empty. -/
def prioritized_queries (base_query : String) (keywords : List String) : List String :=
  let qs := [base_query ++ " Official"] ++
    keywords.foldl (fun acc kw => if kw ≠ "" then acc ++ [base_query ++ " " ++ kw] else acc) []
  if keywords.contains "" || keywords.isEmpty then qs ++ [base_query] else qs

/-- Order-preserving deduplication keeping first occurrences: the
semantics of `list(dict.fromkeys(prioritized_queries))`. -/
def dedupKeepFirst (seen : List String) : List String → List String
  | [] => []
  | q :: rest =>
    if q ∈ seen then dedupKeepFirst seen rest
    else q :: dedupKeepFirst (q :: seen) rest

/-- The deduplicated candidate-query ladder of `search_video_with_keywords`
(src/youtube_client.py line 175). -/
def unique_queries (base_query : String) (keywords : List String) : List String :=
  dedupKeepFirst [] (prioritized_queries base_query keywords)

/-- The per-query loop of `search_video_with_keywords`
(src/youtube_client.py lines 177-211), with the provider search call
abstracted by `oracle` (mapping a query string to the response's filtered
video-id list, or an error).  Returns the trace of queries actually issued
together with the result: the first non-empty hit list, the re-raised
quota exception, or the empty list once every candidate is exhausted.
The `invalidSearchFilter` branch and the generic warning branch both
continue with the next candidate query, exactly as in the source. -/
def searchQueriesGo (oracle : String → ApiResult (List String)) :
    List String → List String × Except YtExc (List String)
  | [] => ([], .ok [])
  | q :: rest =>
    match oracle q with
    | .ok ids =>
      if ids.isEmpty then
        let (t, r) := searchQueriesGo oracle rest
        (q :: t, r)
      else ([q], .ok ids)
    | .httpError status content =>
      if status = 403 ∧ containsSub "quotaExceeded".data (lowerStr content) then
        ([q], .error (.quotaHttp status content))
      else if status = 400 ∧ containsSub "invalidSearchFilter".data (lowerStr content) then
        let (t, r) := searchQueriesGo oracle rest
        (q :: t, r)
      else
        let (t, r) := searchQueriesGo oracle rest
        (q :: t, r)
    | .otherError =>
      let (t, r) := searchQueriesGo oracle rest
      (q :: t, r)

/-- Embedding of `src/youtube_client.py, search_video_with_keywords`
(client assumed authenticated): build the deduplicated ladder and walk it.
The `tenacity` decorator on the source method only retries when an
`HttpError` escapes the body, which `searchQueriesGo_ok` below shows
never happens, so the decorator is the identity here. -/
def search_video_with_keywords (oracle : String → ApiResult (List String))
    (base_query : String) (keywords : List String) :
    List String × Except YtExc (List String) :=
  searchQueriesGo oracle (unique_queries base_query keywords)

/-- Embedding of `src/youtube_client.py, add_video_to_playlist` (client
assumed authenticated): `resp` abstracts the outcome of the
`playlistItems().insert(...).execute()` call for the given pair.  Mirrors
the source's error ladder: quota re-raised, video/playlist not found and
forbidden give `False`, `videoAlreadyInPlaylist` gives `True`, anything
else gives `False`. -/
def add_video_to_playlist (playlist_id video_id : String) (resp : ApiResult Unit) :
    Except YtExc Bool :=
  match playlist_id, video_id, resp with
  | _, _, .ok _ => .ok true
  | _, _, .httpError status content =>
    let lc := lowerStr content
    if status = 403 ∧ containsSub "quotaExceeded".data lc then
      .error (.quotaHttp status content)
    else if status = 404 ∧ (containsSub "videoNotFound".data lc
        ∨ containsSub "playlistNotFound".data lc) then
      .ok false
    else if status = 403 ∧ containsSub "forbidden".data lc then
      .ok false
    else if status = 400 ∧ containsSub "videoAlreadyInPlaylist".data lc then
      .ok true
    else
      .ok false
  | _, _, .otherError => .ok false

/-- Projection of a client-method result onto its normal return value
(`none` when the method re-raised an exception). -/
def okVal {α : Type} : Except YtExc α → Option α
  | .ok v => some v
  | .error _ => none

/-- An artist object inside a Spotify playlist item: its `name` field may
be absent or empty. -/
structure SpArtist where
  name : Option String
deriving DecidableEq

/-- The track object of a Spotify playlist item, with the fields requested
by `_fetch_playlist_items_page`: `name`, `artists`, and `type` (here `ty`).
Absent JSON fields are `none`. -/
structure SpTrackObj where
  name : Option String
  artists : Option (List SpArtist)
  ty : String
deriving DecidableEq

/-- One entry of a Spotify playlist page: its `track` field is `None` for
local files, removed tracks and other non-track entries. -/
structure SpItem where
  track : Option SpTrackObj
deriving DecidableEq

/-- What the per-item body of `get_playlist_tracks`
(src/spotify_client.py lines 147-170) does with one playlist entry. -/
inductive ItemOutcome where
  | included (trackName artistName : String)
  | skippedNonTrack
  | droppedWithWarning
deriving DecidableEq

/-- The artist-name comprehension of `get_playlist_tracks`
(src/spotify_client.py line 163): keep only truthy artist names. -/
def resolvedArtistNames (artists : List SpArtist) : List String :=
  artists.filterMap (fun a =>
    match a.name with
    | some an => if an ≠ "" then some an else none
    | none => none)

/-- Embedding of the per-item body of `get_playlist_tracks`: skip entries
with no track object, skip non-`track` types, include entries whose `name`
and `artists` fields are both truthy (with the artist display string
falling back to `"Unknown Artist"` when no artist name is resolvable), and
drop everything else with a warning. -/
def processItem (item : SpItem) : ItemOutcome :=
  match item.track with
  | none => .skippedNonTrack
  | some tr =>
    if tr.ty ≠ "track" then .skippedNonTrack
    else
      match tr.name, tr.artists with
      | some nm, some artists =>
        if nm ≠ "" ∧ artists ≠ [] then
          let artistStr := String.intercalate ", " (resolvedArtistNames artists)
          .included nm (if artistStr = "" then "Unknown Artist" else artistStr)
        else .droppedWithWarning
      | _, _ => .droppedWithWarning

/-- The track list accumulated by `get_playlist_tracks` over a list of
playlist entries (the pagination mechanics are external collaborators; the
per-entry filter is what the spec describes). -/
def get_playlist_tracks_items (items : List SpItem) : List (String × String) :=
  items.filterMap (fun it =>
    match processItem it with
    | .included tn an => some (tn, an)
    | _ => none)

/-- Convenience wrapper of `sanitize_filename` on Lean strings, as used by
the playlist-naming code in `src/app.py`. -/
def sanitizeStr (s : String) : String :=
  (sanitize_filename (.str s.data)).asString

/-- The fixed keyword list used by the conversion loop
(src/app.py line 175). -/
def search_keywords : List String :=
  ["official video", "official music video", "official audio", "lyrics", "audio", ""]

/-- One structured progress event of the conversion stream: each
constructor corresponds to one `yield` site of
`generate_conversion_stream` in `src/app.py`, carrying the dynamic values
interpolated into that message. -/
inductive Event where
  | fetchingTracks
  | noTracksFound
  | foundTracks (n : Nat)
  | usingDefaultName (name : String)
  | creatingPlaylist (name privacy : String)
  | createFailed (name : String)
  | playlistCreated (pid : String)
  | playlistLink (pid : String)
  | searching (i n : Nat) (trackName artistName : String)
  | apiErrorSearching (q : String)
  | fatalQuotaSearch
  | foundAdding (vid : String)
  | addedOk (trackName artistName : String)
  | failedAdd (trackName artistName vid : String)
  | apiErrorAdding (vid : String)
  | fatalQuotaAdd
  | noSuitableVideo (trackName artistName : String)
  | processComplete
  | summaryAdded (n : Nat) (name : String)
  | summaryNotFound (n : Nat)
  | summaryFailedToAdd (n : Nat)
  | summaryLink (pid : String)
  | endOfStream
deriving DecidableEq

/-- One provider call issued by the conversion run (used to state which
external operations a run performs, and in which order). -/
inductive ApiCall where
  | createPlaylist (title pdesc privacy : String)
  | searchList (q : String)
  | insertPlaylistItem (pid vid : String)
deriving DecidableEq

/-- The three outcome counters of one conversion run
(src/app.py lines 171-173). -/
structure Counters where
  added : Nat
  notFound : Nat
  failedToAdd : Nat
deriving DecidableEq

/-- Environment of one conversion run: the request inputs, the results
the external providers give back, and the per-track oracles for the
YouTube search and insert calls.  `detailsName` is what
`get_playlist_details(...)['name']` yields (`none` when the details fetch
fails or the playlist has no name). -/
structure RunEnv where
  url : List Char
  nameInput : String
  privacy : String
  tracks : List (String × String)
  detailsName : Option String
  createResult : Option String
  searchOracle : Nat → String → ApiResult (List String)
  addOracle : Nat → ApiResult Unit

/-- The naming fallback of `generate_conversion_stream`
(src/app.py lines 143-154): an explicit name wins; otherwise derive from
the playlist details, else from the first track, else a generic default. -/
def final_playlist_name (nameInput : String) (url : List Char)
    (detailsName : Option String) (tracks : List (String × String)) : String :=
  if nameInput ≠ "" then nameInput
  else
    match extract_playlist_id_from_url url with
    | none => "My Spotify Playlist on YouTube"
    | some _ =>
      match detailsName with
      | some dn =>
        if dn ≠ "" then sanitizeStr (dn ++ " (on YouTube)")
        else
          match tracks with
          | [] => "My Spotify Playlist on YouTube"
          | (tn, _) :: _ => sanitizeStr (tn ++ " and others (on YouTube)")
      | none =>
        match tracks with
        | [] => "My Spotify Playlist on YouTube"
        | (tn, _) :: _ => sanitizeStr (tn ++ " and others (on YouTube)")

/-- Result of one iteration of the per-track loop: the events and calls it
produced, the updated counters, and whether the loop `break`s. -/
inductive StepRes where
  | cont (events : List Event) (calls : List ApiCall) (c : Counters)
  | fatal (events : List Event) (calls : List ApiCall) (c : Counters)

/-- One iteration of the per-track loop of `generate_conversion_stream`
(src/app.py lines 178-246) for track `t` at zero-based index `i` of `n`.
The YouTube client is available throughout (the defensive
mid-loop availability checks concern the mutable global handle, outside
this model).  The quota checks on the exception branches mirror
src/app.py lines 194 and 230; the source's `tenacity` wrapper around the
search would actually deliver a `RetryError` here, but `search_video_ok`
below shows the branch is unreachable either way. -/
def trackStep (env : RunEnv) (pid : String) (n i : Nat)
    (t : String × String) (c : Counters) : StepRes :=
  let tn := t.1
  let an := t.2
  let base_query := tn ++ " " ++ an
  let ev0 := Event.searching i n tn an
  let (trace, res) := search_video_with_keywords (env.searchOracle i) base_query search_keywords
  let searchCalls := trace.map ApiCall.searchList
  match res with
  | .error (.quotaHttp status content) =>
    if status = 403 ∧ containsSub "quotaExceeded".data (lowerStr content) then
      .fatal [ev0, .fatalQuotaSearch] searchCalls c
    else
      .cont [ev0, .apiErrorSearching base_query] searchCalls
        { c with notFound := c.notFound + 1 }
  | .ok [] =>
    .cont [ev0, .noSuitableVideo tn an] searchCalls
      { c with notFound := c.notFound + 1 }
  | .ok (vid :: _) =>
    let allCalls := searchCalls ++ [ApiCall.insertPlaylistItem pid vid]
    match add_video_to_playlist pid vid (env.addOracle i) with
    | .ok true =>
      .cont [ev0, .foundAdding vid, .addedOk tn an] allCalls
        { c with added := c.added + 1 }
    | .ok false =>
      .cont [ev0, .foundAdding vid, .failedAdd tn an vid] allCalls
        { c with failedToAdd := c.failedToAdd + 1 }
    | .error (.quotaHttp status content) =>
      if status = 403 ∧ containsSub "quotaExceeded".data (lowerStr content) then
        .fatal [ev0, .foundAdding vid, .fatalQuotaAdd] allCalls c
      else
        .cont [ev0, .foundAdding vid, .apiErrorAdding vid] allCalls
          { c with failedToAdd := c.failedToAdd + 1 }

/-- The per-track loop: run `trackStep` over the remaining tracks,
stopping early on a fatal step (`break`). -/
def runLoop (env : RunEnv) (pid : String) (n : Nat) :
    Nat → List (String × String) → Counters → List Event × List ApiCall × Counters
  | _, [], c => ([], [], c)
  | i, t :: rest, c =>
    match trackStep env pid n i t c with
    | .cont evs calls c2 =>
      let (evs2, calls2, c3) := runLoop env pid n (i + 1) rest c2
      (evs ++ evs2, calls ++ calls2, c3)
    | .fatal evs calls c2 => (evs, calls, c2)

/-- Embedding of `generate_conversion_stream` (src/app.py lines 130-258),
starting after successful client initialization: the returned pair is the
ordered list of emitted events and the ordered trace of provider calls. -/
def generate_conversion_stream (env : RunEnv) : List Event × List ApiCall :=
  if env.tracks.isEmpty then
    ([Event.fetchingTracks, .noTracksFound, .endOfStream], [])
  else
    let n := env.tracks.length
    let name := final_playlist_name env.nameInput env.url env.detailsName env.tracks
    let nameEvents := if env.nameInput = "" then [Event.usingDefaultName name] else []
    let pdesc := "Playlist created from Spotify playlist: " ++ env.url.asString
      ++ " by SpotifyToYouTubeConverter."
    let pre := [Event.fetchingTracks, .foundTracks n] ++ nameEvents
      ++ [Event.creatingPlaylist name env.privacy]
    let createCall := ApiCall.createPlaylist name pdesc env.privacy
    match env.createResult with
    | none => (pre ++ [.createFailed name, .endOfStream], [createCall])
    | some pid =>
      if pid = "" then (pre ++ [.createFailed name, .endOfStream], [createCall])
      else
        let (evs, calls, c) := runLoop env pid n 0 env.tracks ⟨0, 0, 0⟩
        (pre ++ [.playlistCreated pid, .playlistLink pid] ++ evs
          ++ [.processComplete, .summaryAdded c.added name]
          ++ (if c.notFound > 0 then [Event.summaryNotFound c.notFound] else [])
          ++ (if c.failedToAdd > 0 then [Event.summaryFailedToAdd c.failedToAdd] else [])
          ++ (if pid ≠ "" then [Event.summaryLink pid] else [])
          ++ [Event.endOfStream],
         createCall :: calls)

/-- Whether a provider search response is a hit (a non-empty id list). -/
def isHit : ApiResult (List String) → Bool
  | .ok ids => !ids.isEmpty
  | _ => false

/-- Whether, in environment `env`, the search for track `t` at index `i`
returns a video (the condition `if video_ids:` of src/app.py line 211). -/
def trackMatched (env : RunEnv) (i : Nat) (t : String × String) : Bool :=
  match (search_video_with_keywords (env.searchOracle i) (t.1 ++ " " ++ t.2) search_keywords).2 with
  | .ok (_ :: _) => true
  | _ => false

/-- Whether, in environment `env`, the search for track `t` at index `i`
returns a video and the subsequent add of its first id succeeds. -/
def trackAddSucceeded (env : RunEnv) (pid : String) (i : Nat) (t : String × String) : Bool :=
  match (search_video_with_keywords (env.searchOracle i) (t.1 ++ " " ++ t.2) search_keywords).2 with
  | .ok (vid :: _) =>
    match add_video_to_playlist pid vid (env.addOracle i) with
    | .ok b => b
    | .error _ => false
  | _ => false

/-- Whether a provider call is a playlist-item insert (an add attempt). -/
def isInsertCall : ApiCall → Bool
  | .insertPlaylistItem _ _ => true
  | _ => false

/-- Whether an event belongs to the final summary block
(src/app.py lines 250-256). -/
def isSummaryEvent : Event → Bool
  | .summaryAdded _ _ => true
  | .summaryNotFound _ => true
  | .summaryFailedToAdd _ => true
  | .summaryLink _ => true
  | _ => false

/-- Characters that can appear in the output of `sanitize_filename` on a
string input: word characters, the plain space, hyphens and parentheses. -/
def allowedOutChar (c : Char) : Bool :=
  isWordAscii c || c = ' ' || c = '-' || c = '(' || c = ')'

/-- Error content carrying the provider's quota-exhaustion reason, as the
YouTube API reports it (the reason token is `quotaExceeded`). -/
def quotaContent : List Char :=
  "The request cannot be completed because you have exceeded your quota. reason quotaExceeded".data

/-- Error content carrying the provider's duplicate-entry reason, as the
YouTube API reports it (the reason token is `videoAlreadyInPlaylist`). -/
def alreadyInPlaylistContent : List Char :=
  "The request failed. reason videoAlreadyInPlaylist".data

/-- Concrete two-track run in which the provider reports quota exhaustion
on the add call of the first track and normal results everywhere else. -/
def envQuotaDuringAdd : RunEnv where
  url := "https://open.spotify.com/playlist/ABCDEFGHIJKLMNOPQRSTUV".data
  nameInput := "My YT Playlist"
  privacy := "private"
  tracks := [("Song One", "Artist One"), ("Song Two", "Artist Two")]
  detailsName := none
  createResult := some "PL123"
  searchOracle := fun _ q =>
    if q = "Song One Artist One Official" then .ok ["vid1"]
    else if q = "Song Two Artist Two Official" then .ok ["vid2"]
    else .ok []
  addOracle := fun i => if i = 0 then .httpError 403 quotaContent else .ok ()

/-- Concrete search oracle that answers the first candidate query with a
transient server-side error (HTTP 503) and the second with a hit. -/
def transientThenHitOracle : String → ApiResult (List String) :=
  fun q =>
    if q = "Song A Artist A Official" then .httpError 503 "Backend Error".data
    else if q = "Song A Artist A official video" then .ok ["vidX"]
    else .ok []

/-- Concrete playlist entry whose track has a name, type `track`, and an
empty artist list. -/
def itemEmptyArtists : SpItem :=
  ⟨some ⟨some "Song X", some [], "track"⟩⟩

/-- Concrete input to `sanitize_filename`: 99 letters, a space, one more
letter (101 characters in total, none removable). -/
def longNameInput : List Char :=
  List.replicate 99 'a' ++ [' ', 'b']

/-- Concrete environment with an empty fetched track list. -/
def envNoTracks : RunEnv where
  url := "https://open.spotify.com/playlist/ABCDEFGHIJKLMNOPQRSTUV".data
  nameInput := ""
  privacy := "private"
  tracks := []
  detailsName := none
  createResult := none
  searchOracle := fun _ _ => .ok []
  addOracle := fun _ => .ok ()

/-- Concrete one-track run that matches and adds successfully. -/
def envOneGoodTrack : RunEnv where
  url := "https://open.spotify.com/playlist/ABCDEFGHIJKLMNOPQRSTUV".data
  nameInput := "Mix"
  privacy := "private"
  tracks := [("Song One", "Artist One")]
  detailsName := none
  createResult := some "PL123"
  searchOracle := fun _ q =>
    if q = "Song One Artist One Official" then .ok ["vid1"] else .ok []
  addOracle := fun _ => .ok ()

/-- Lowercasing never produces an uppercase ASCII letter (codes 65-90). -/
theorem toLower_ne_upperAscii (c d : Char) (h65 : 65 ≤ d.toNat) (h90 : d.toNat ≤ 90) :
    Char.toLower c ≠ d := by
  simp only [Char.toLower]
  split
  · rename_i hcond
    intro h
    have h2 := congrArg Char.toNat h
    simp only [Char.ofNat, Char.ofNatAux, Char.toNat] at h2
    split at h2
    · simp only [UInt32.toNat, BitVec.toNat_ofNatLt] at h2
      have hb : c.toNat ≥ 65 := hcond.1
      have hb2 : c.toNat ≤ 90 := hcond.2
      simp only [Char.toNat, UInt32.toNat] at hb hb2 h65 h90
      omega
    · rename_i hc
      exact hc (by
        unfold Nat.isValidChar
        left
        have : c.toNat ≤ 90 := hcond.2
        simp only [Char.toNat, UInt32.toNat] at this
        simp only [UInt32.toNat]
        omega)
  · rename_i hcond
    intro h
    exact hcond (h ▸ ⟨h65, h90⟩)

/-- Every character of a pattern matching at the head occurs in the text. -/
theorem mem_of_isPre (p l : List Char) (h : isPre p l = true) : ∀ c ∈ p, c ∈ l := by
  induction p generalizing l with
  | nil => intro c hc; cases hc
  | cons x p ih =>
    cases l with
    | nil => simp [isPre] at h
    | cons a l' =>
      simp only [isPre, Bool.and_eq_true, beq_iff_eq] at h
      intro c hc
      rcases List.mem_cons.mp hc with rfl | hc2
      · exact h.1 ▸ List.mem_cons_self a l'
      · exact List.mem_cons_of_mem _ (ih l' h.2 c hc2)

/-- Every character of a substring occurs in the enclosing string. -/
theorem mem_of_containsSub (p l : List Char) (h : containsSub p l = true) :
    ∀ c ∈ p, c ∈ l := by
  induction l with
  | nil =>
    intro c hc
    simp only [containsSub, List.isEmpty_iff] at h
    subst h; cases hc
  | cons a l' ih =>
    simp only [containsSub, Bool.or_eq_true] at h
    intro c hc
    rcases h with h1 | h2
    · exact mem_of_isPre _ _ h1 c hc
    · exact List.mem_cons_of_mem _ (ih h2 c hc)

/-- A pattern containing an uppercase ASCII letter never occurs in a
lowercased string. -/
theorem containsSub_lowerStr_false (p s : List Char) (c : Char) (hc : c ∈ p)
    (h65 : 65 ≤ c.toNat) (h90 : c.toNat ≤ 90) :
    containsSub p (lowerStr s) = false := by
  cases hb : containsSub p (lowerStr s)
  · rfl
  · exfalso
    have hmem := mem_of_containsSub _ _ hb c hc
    rcases List.mem_map.mp hmem with ⟨x, _, hx⟩
    exact toLower_ne_upperAscii x c h65 h90 hx

/-- The quota check of `src/youtube_client.py` tests for the mixed-case
token `quotaExceeded` inside the lowercased error content, so it can never
succeed. -/
theorem quotaNeedle_not_in_lower (content : List Char) :
    containsSub "quotaExceeded".data (lowerStr content) = false :=
  containsSub_lowerStr_false _ _ 'E' (by decide) (by decide) (by decide)

/-- The duplicate-entry check of `add_video_to_playlist` tests for the
mixed-case token `videoAlreadyInPlaylist` inside the lowercased error
content, so it can never succeed. -/
theorem alreadyNeedle_not_in_lower (content : List Char) :
    containsSub "videoAlreadyInPlaylist".data (lowerStr content) = false :=
  containsSub_lowerStr_false _ _ 'A' (by decide) (by decide) (by decide)

/-- The per-query search loop never re-raises: the quota branch guard is
dead, every other error branch continues, so the loop always returns a
normal (possibly empty) id list. -/
theorem searchQueriesGo_ok (oracle : String → ApiResult (List String)) (qs : List String) :
    ∃ ids, (searchQueriesGo oracle qs).2 = Except.ok ids := by
  induction qs with
  | nil => exact ⟨[], rfl⟩
  | cons q rest ih =>
    cases horacle : oracle q with
    | ok ids =>
      by_cases he : ids.isEmpty
      · simpa [searchQueriesGo, horacle, he] using ih
      · simp [searchQueriesGo, horacle, he]
    | httpError status content =>
      simp only [searchQueriesGo, horacle]
      rw [if_neg]
      · split
        · simpa using ih
        · simpa using ih
      · rintro ⟨-, h2⟩
        rw [quotaNeedle_not_in_lower content] at h2
        exact Bool.noConfusion h2
    | otherError => simpa [searchQueriesGo, horacle] using ih

/-- `search_video_with_keywords` never lets an exception escape, whatever
the provider answers; in particular the `tenacity` retry wrapper around it
never fires. -/
theorem search_video_ok (oracle : String → ApiResult (List String))
    (base_query : String) (keywords : List String) :
    ∃ ids, (search_video_with_keywords oracle base_query keywords).2 = Except.ok ids :=
  searchQueriesGo_ok oracle _

/-- `add_video_to_playlist` never re-raises: its quota guard is dead, and
every other branch returns a boolean. -/
theorem add_video_ok (p v : String) (resp : ApiResult Unit) :
    ∃ b, add_video_to_playlist p v resp = Except.ok b := by
  cases resp with
  | ok u => exact ⟨true, rfl⟩
  | otherError => exact ⟨false, rfl⟩
  | httpError status content =>
    simp only [add_video_to_playlist]
    rw [if_neg]
    · split
      · exact ⟨false, rfl⟩
      · split
        · exact ⟨false, rfl⟩
        · split
          · exact ⟨true, rfl⟩
          · exact ⟨false, rfl⟩
    · rintro ⟨-, h2⟩
      rw [quotaNeedle_not_in_lower content] at h2
      exact Bool.noConfusion h2

/-- C1: evaluation of the run in which the provider reports quota
exhaustion (HTTP 403, reason token `quotaExceeded`) on the add call of the
first of two tracks.  Contrary to the claim, the per-track loop does not
halt: the embedded `add_video_to_playlist` returns `False` (its quota
guard compares the mixed-case token against lowercased content), the track
is counted as failed-to-add, and the second track is still searched and
added; no fatal quota event is ever emitted. -/
theorem claim_C1_quota_not_fatal_eval :
    add_video_to_playlist "PL123" "vid1" (.httpError 403 quotaContent) = .ok false
    ∧ Event.searching 1 2 "Song Two" "Artist Two" ∈ (generate_conversion_stream envQuotaDuringAdd).1
    ∧ ApiCall.insertPlaylistItem "PL123" "vid2" ∈ (generate_conversion_stream envQuotaDuringAdd).2
    ∧ Event.summaryFailedToAdd 1 ∈ (generate_conversion_stream envQuotaDuringAdd).1
    ∧ Event.summaryAdded 1 "My YT Playlist" ∈ (generate_conversion_stream envQuotaDuringAdd).1
    ∧ Event.fatalQuotaAdd ∉ (generate_conversion_stream envQuotaDuringAdd).1
    ∧ Event.fatalQuotaSearch ∉ (generate_conversion_stream envQuotaDuringAdd).1 := by
  refine ⟨rfl, ?_, ?_, ?_, ?_, ?_, ?_⟩ <;> decide

/-- C8: evaluation of two add calls with the same playlist/video pair.
The first call (provider accepts) returns success, but the second call
(provider answers HTTP 400 with reason token `videoAlreadyInPlaylist`)
returns `False`, not success: the duplicate-entry guard compares the
mixed-case token against lowercased content and never matches, contrary to
the claim and to the function's own docstring and inline comment. -/
theorem claim_C8_idempotence_eval :
    add_video_to_playlist "PL123" "vid1" (.ok ()) = .ok true
    ∧ add_video_to_playlist "PL123" "vid1" (.httpError 400 alreadyInPlaylistContent) = .ok false :=
  ⟨rfl, rfl⟩

/-- C2 counterexample: on the concrete oracle answering the first candidate
query with a transient HTTP 503 error and the second with a hit, the
matcher issues the failing query exactly once and moves straight to the
next candidate — it is never retried for that query, contrary to the
claim's "retried a bounded number of times for that single query". -/
theorem claim_C2_counterexample :
    (search_video_with_keywords transientThenHitOracle "Song A Artist A" search_keywords).1
      = ["Song A Artist A Official", "Song A Artist A official video"]
    ∧ List.count "Song A Artist A Official"
        (search_video_with_keywords transientThenHitOracle "Song A Artist A" search_keywords).1 = 1
    ∧ okVal (search_video_with_keywords transientThenHitOracle "Song A Artist A" search_keywords).2
      = some ["vidX"] := by
  refine ⟨rfl, ?_, rfl⟩
  decide

/-- C5 counterexample: a playlist entry whose track has a name, type
`track`, and an empty artist list — so no resolvable artist name — is
dropped with a warning instead of being included with the
`"Unknown Artist"` placeholder, contrary to the claim (the source guard
`if track.get('name') and track.get('artists')` treats an empty list as
falsy). -/
theorem claim_C5_counterexample :
    processItem itemEmptyArtists = .droppedWithWarning
    ∧ get_playlist_tracks_items [itemEmptyArtists] = [] :=
  ⟨rfl, rfl⟩

/-- C10 counterexample: on 99 letters, a space and one more letter, the
sanitized result has length 100 and ends in a space — truncation happens
after stripping, so the output can carry trailing whitespace, contrary to
the claim. -/
theorem claim_C10_counterexample :
    (sanitize_filename (.str longNameInput)).length = 100
    ∧ (sanitize_filename (.str longNameInput)).getLast? = some ' '
    ∧ isSpaceAscii ' ' = true := by
  refine ⟨?_, ?_, rfl⟩ <;> decide

/-- When no candidate query yields a hit, the search loop issues every
candidate exactly once in order and returns the empty list, not an
error. -/
theorem searchQueriesGo_all_miss (oracle : String → ApiResult (List String)) (qs : List String)
    (h : ∀ q ∈ qs, isHit (oracle q) = false) :
    searchQueriesGo oracle qs = (qs, Except.ok []) := by
  induction qs with
  | nil => rfl
  | cons q rest ih =>
    have hq := h q (List.mem_cons_self q rest)
    have hrest : ∀ q' ∈ rest, isHit (oracle q') = false :=
      fun q' hq' => h q' (List.mem_cons_of_mem _ hq')
    cases horacle : oracle q with
    | ok ids =>
      have hemp : ids.isEmpty = true := by
        rw [horacle] at hq
        simpa [isHit] using hq
      simp [searchQueriesGo, horacle, hemp, ih hrest]
    | httpError status content =>
      simp only [searchQueriesGo, horacle]
      rw [if_neg]
      · split <;> simp [ih hrest]
      · rintro ⟨-, h2⟩
        rw [quotaNeedle_not_in_lower content] at h2
        exact Bool.noConfusion h2
    | otherError => simp [searchQueriesGo, horacle, ih hrest]

/-- C2 (amended): a transient error on one candidate query is not retried
for that query — the matcher moves directly to the next candidate, so when
no candidate yields a hit the trace is exactly the deduplicated ladder,
each candidate issued once, and the matcher returns the empty "no match"
result rather than an error. -/
theorem claim_C2_amended (oracle : String → ApiResult (List String)) (base_query : String)
    (keywords : List String)
    (h : ∀ q ∈ unique_queries base_query keywords, isHit (oracle q) = false) :
    search_video_with_keywords oracle base_query keywords
      = (unique_queries base_query keywords, Except.ok []) :=
  searchQueriesGo_all_miss oracle _ h

/-- C2 witness: the amended theorem applied to a concrete oracle that
answers every query with a transient HTTP 500 error. -/
theorem claim_C2_witness :
    search_video_with_keywords (fun _ => .httpError 500 "Server Error".data) "B" ["x"]
      = (["B Official", "B x"], Except.ok []) :=
  claim_C2_amended _ "B" ["x"] (by decide)

/-- C5 (amended): an entry whose track has a name and a present, non-empty
artist list with no resolvable artist name is included with the
`"Unknown Artist"` placeholder; an entry whose artist list is empty or
absent is dropped with a warning; and an entry with no resolvable track
name is dropped with a warning. -/
theorem claim_C5_amended (nm : String) (hnm : nm ≠ "") (artists : List SpArtist) :
    (artists ≠ [] → resolvedArtistNames artists = [] →
        processItem ⟨some ⟨some nm, some artists, "track"⟩⟩ = .included nm "Unknown Artist")
    ∧ processItem ⟨some ⟨some nm, some [], "track"⟩⟩ = .droppedWithWarning
    ∧ processItem ⟨some ⟨some nm, none, "track"⟩⟩ = .droppedWithWarning
    ∧ (∀ a : Option (List SpArtist), processItem ⟨some ⟨none, a, "track"⟩⟩ = .droppedWithWarning)
    ∧ (∀ a : Option (List SpArtist), processItem ⟨some ⟨some "", a, "track"⟩⟩ = .droppedWithWarning) := by
  refine ⟨?_, ?_, rfl, ?_, ?_⟩
  · intro hne hres
    simp [processItem, hnm, hne, hres, show String.intercalate ", " [] = "" from rfl]
  · simp [processItem, hnm]
  · intro a; cases a <;> rfl
  · intro a; cases a <;> rfl

/-- C5 witness: the amended theorem applied to a concrete entry with one
nameless artist (included as `"Unknown Artist"`) and one with an absent
artist field (dropped). -/
theorem claim_C5_witness :
    processItem ⟨some ⟨some "Song X", some [⟨none⟩], "track"⟩⟩ = .included "Song X" "Unknown Artist"
    ∧ processItem ⟨some ⟨some "Song X", none, "track"⟩⟩ = .droppedWithWarning :=
  ⟨(claim_C5_amended "Song X" (by decide) [⟨none⟩]).1 (by decide) rfl,
   (claim_C5_amended "Song X" (by decide) [⟨none⟩]).2.2.1⟩

/-- C9: a run whose source playlist yields zero playable tracks emits
exactly the fetching notice, the "no tracks found" event and the
end-of-stream marker, and issues no provider call at all — in particular
the playlist-create operation is never invoked. -/
theorem claim_C9_no_tracks (env : RunEnv) (h : env.tracks = []) :
    generate_conversion_stream env = ([Event.fetchingTracks, .noTracksFound, .endOfStream], []) := by
  simp [generate_conversion_stream, h]

/-- C9 witness: the theorem applied to the concrete empty-playlist run. -/
theorem claim_C9_witness :
    generate_conversion_stream envNoTracks
      = ([Event.fetchingTracks, .noTracksFound, .endOfStream], []) :=
  claim_C9_no_tracks envNoTracks rfl

/-- The keyword fold of `search_video_with_keywords` appends exactly the
queries built from the non-empty keywords, in order. -/
theorem foldl_nonempty_modifiers (base : String) (keywords : List String) :
    ∀ init : List String,
    keywords.foldl (fun acc kw => if kw ≠ "" then acc ++ [base ++ " " ++ kw] else acc) init
      = init ++ (keywords.filter (fun kw => kw ≠ "")).map (fun kw => base ++ " " ++ kw) := by
  induction keywords with
  | nil => intro init; simp
  | cons k ks ih =>
    intro init
    rw [List.foldl_cons]
    by_cases hk : k = ""
    · rw [if_neg (fun hkk => hkk hk), ih]
      simp [List.filter_cons, hk]
    · rw [if_pos hk, ih]
      simp [List.filter_cons, hk]

/-- The prioritized query list is exactly the ladder the spec describes:
the "Official" query, the non-empty-modifier queries in order, then the
bare base query when the modifier list contains the empty string or is
empty. -/
theorem prioritized_queries_eq (base : String) (keywords : List String) :
    prioritized_queries base keywords
      = [base ++ " Official"]
        ++ (keywords.filter (fun kw => kw ≠ "")).map (fun kw => base ++ " " ++ kw)
        ++ (if "" ∈ keywords ∨ keywords = [] then [base] else []) := by
  unfold prioritized_queries
  rw [foldl_nonempty_modifiers]
  by_cases hc : "" ∈ keywords ∨ keywords = []
  · have hb : (keywords.contains "" || keywords.isEmpty) = true := by
      rcases hc with h1 | h1 <;> simp [h1]
    simp [hb, hc]
  · have hb : (keywords.contains "" || keywords.isEmpty) = false := by
      push_neg at hc
      simp [hc.1, hc.2]
    simp [hb, hc]

/-- Membership in the deduplicated list: kept iff present in the input and
not already seen. -/
theorem mem_dedupKeepFirst (x : String) (l : List String) : ∀ seen : List String,
    (x ∈ dedupKeepFirst seen l ↔ x ∈ l ∧ x ∉ seen) := by
  induction l with
  | nil => intro seen; simp [dedupKeepFirst]
  | cons q rest ih =>
    intro seen
    by_cases hq : q ∈ seen
    · simp only [dedupKeepFirst, if_pos hq, ih seen, List.mem_cons]
      constructor
      · rintro ⟨h1, h2⟩
        exact ⟨Or.inr h1, h2⟩
      · rintro ⟨h1, h2⟩
        rcases h1 with rfl | h1
        · exact absurd hq h2
        · exact ⟨h1, h2⟩
    · simp only [dedupKeepFirst, if_neg hq, List.mem_cons, ih (q :: seen)]
      constructor
      · rintro (rfl | ⟨h1, h2⟩)
        · exact ⟨Or.inl rfl, hq⟩
        · exact ⟨Or.inr h1, fun hs => h2 (Or.inr hs)⟩
      · rintro ⟨h1, h2⟩
        by_cases hxq : x = q
        · exact Or.inl hxq
        · have h1' : x ∈ rest := by
            rcases h1 with rfl | h1
            · exact absurd rfl hxq
            · exact h1
          exact Or.inr ⟨h1', fun hmem => hmem.elim hxq h2⟩

/-- The deduplicated list has no duplicates. -/
theorem nodup_dedupKeepFirst (l : List String) : ∀ seen : List String,
    (dedupKeepFirst seen l).Nodup := by
  induction l with
  | nil => intro seen; simp [dedupKeepFirst]
  | cons q rest ih =>
    intro seen
    by_cases hq : q ∈ seen
    · simpa [dedupKeepFirst, if_pos hq] using ih seen
    · simp only [dedupKeepFirst, if_neg hq]
      refine List.nodup_cons.mpr ⟨?_, ih _⟩
      intro hmem
      exact ((mem_dedupKeepFirst q rest _).mp hmem).2 (List.mem_cons_self _ _)

/-- Deduplication preserves the order of the input: the result is a
sublist of the input. -/
theorem sublist_dedupKeepFirst (l : List String) : ∀ seen : List String,
    (dedupKeepFirst seen l).Sublist l := by
  induction l with
  | nil => intro seen; simp [dedupKeepFirst]
  | cons q rest ih =>
    intro seen
    by_cases hq : q ∈ seen
    · simpa [dedupKeepFirst, if_pos hq] using (ih seen).cons q
    · simp only [dedupKeepFirst, if_neg hq]
      exact (ih (q :: seen)).cons₂ q

/-- C4: the candidate-query sequence is exactly the first-occurrence
deduplication of: the "Official" query first, then one query per non-empty
modifier in the given order, then the bare base query when the modifier
list contains the empty string or is empty; its head is the "Official"
query; it has no exact-string repeats; it preserves the construction
order (a sublist of the raw ladder containing every raw query); and it is
deterministic in its inputs. -/
theorem claim_C4_query_ladder (base_query : String) (keywords : List String) :
    unique_queries base_query keywords
      = dedupKeepFirst [] ([base_query ++ " Official"]
          ++ (keywords.filter (fun kw => kw ≠ "")).map (fun kw => base_query ++ " " ++ kw)
          ++ (if "" ∈ keywords ∨ keywords = [] then [base_query] else []))
    ∧ (unique_queries base_query keywords).head? = some (base_query ++ " Official")
    ∧ (unique_queries base_query keywords).Nodup
    ∧ (unique_queries base_query keywords).Sublist (prioritized_queries base_query keywords)
    ∧ (∀ q, q ∈ unique_queries base_query keywords ↔ q ∈ prioritized_queries base_query keywords)
    ∧ (∀ b2 k2, b2 = base_query → k2 = keywords →
        unique_queries b2 k2 = unique_queries base_query keywords) := by
  refine ⟨?_, ?_, nodup_dedupKeepFirst _ _, sublist_dedupKeepFirst _ _, ?_, ?_⟩
  · unfold unique_queries
    rw [prioritized_queries_eq]
  · unfold unique_queries
    rw [prioritized_queries_eq]
    simp [dedupKeepFirst]
  · intro q
    unfold unique_queries
    rw [mem_dedupKeepFirst]
    simp
  · intro b2 k2 h1 h2
    rw [h1, h2]

/-- C4 witness: the theorem applied to a concrete base query and modifier
list, discharging the determinism hypotheses. -/
theorem claim_C4_witness :
    (unique_queries "B" [""]).Nodup ∧ unique_queries "B" [""] = unique_queries "B" [""] :=
  ⟨(claim_C4_query_ladder "B" [""]).2.2.1, (claim_C4_query_ladder "B" [""]).2.2.2.2.2 "B" [""] rfl rfl⟩

/-- A successful add presupposes a search hit. -/
theorem trackAddSucceeded_matched (env : RunEnv) (pid : String) (i : Nat) (t : String × String) :
    trackAddSucceeded env pid i t = true → trackMatched env i t = true := by
  unfold trackAddSucceeded trackMatched
  cases h : (search_video_with_keywords (env.searchOracle i) (t.1 ++ " " ++ t.2) search_keywords).2 with
  | ok ids => cases ids <;> simp
  | error e => simp

/-- One iteration of the per-track loop always continues (the fatal
branches are unreachable), increments exactly the counter matching the
track's outcome, and issues exactly one playlist-item insert when the
search matched and none otherwise. -/
theorem trackStep_cont (env : RunEnv) (pid : String) (n i : Nat)
    (t : String × String) (c : Counters) :
    ∃ evs calls, trackStep env pid n i t c = .cont evs calls
      { added := c.added + (if trackAddSucceeded env pid i t then 1 else 0),
        notFound := c.notFound + (if trackMatched env i t then 0 else 1),
        failedToAdd := c.failedToAdd
          + (if trackMatched env i t && !trackAddSucceeded env pid i t then 1 else 0) }
      ∧ calls.countP isInsertCall = (if trackMatched env i t then 1 else 0)
      ∧ (∀ ev ∈ evs, isSummaryEvent ev = false) := by
  obtain ⟨trace, res, hsr⟩ : ∃ tr r,
      search_video_with_keywords (env.searchOracle i) (t.1 ++ " " ++ t.2) search_keywords = (tr, r) :=
    ⟨_, _, rfl⟩
  obtain ⟨ids, hids⟩ := search_video_ok (env.searchOracle i) (t.1 ++ " " ++ t.2) search_keywords
  rw [hsr] at hids
  simp only [Prod.snd] at hids
  unfold trackMatched trackAddSucceeded
  simp only [trackStep]
  rw [hsr, hids]
  dsimp only
  cases ids with
  | nil =>
    refine ⟨[Event.searching i n t.1 t.2, Event.noSuitableVideo t.1 t.2],
            List.map ApiCall.searchList trace, ?_, ?_, ?_⟩
    · simp
    · simp [List.countP_map, isInsertCall]
    · simp [isSummaryEvent]
  | cons vid rest =>
    obtain ⟨b, hb⟩ := add_video_ok pid vid (env.addOracle i)
    dsimp only
    rw [hb]
    cases b with
    | true =>
      refine ⟨[Event.searching i n t.1 t.2, Event.foundAdding vid, Event.addedOk t.1 t.2],
              List.map ApiCall.searchList trace ++ [ApiCall.insertPlaylistItem pid vid], ?_, ?_, ?_⟩
      · simp
      · simp [List.countP_append, List.countP_map, isInsertCall, List.countP_cons]
      · simp [isSummaryEvent]
    | false =>
      refine ⟨[Event.searching i n t.1 t.2, Event.foundAdding vid, Event.failedAdd t.1 t.2 vid],
              List.map ApiCall.searchList trace ++ [ApiCall.insertPlaylistItem pid vid], ?_, ?_, ?_⟩
      · simp
      · simp [List.countP_append, List.countP_map, isInsertCall, List.countP_cons]
      · simp [isSummaryEvent]

/-- Counter bookkeeping of the whole per-track loop: each counter ends at
its count of per-track outcomes over the processed suffix, the insert
calls are one per matched track, and the three counters sum to the number
of tracks. -/
theorem runLoop_counters (env : RunEnv) (pid : String) (n : Nat) :
    ∀ (ts : List (String × String)) (i : Nat) (c : Counters),
    (runLoop env pid n i ts c).2.2.added
        = c.added + (List.enumFrom i ts).countP (fun p => trackAddSucceeded env pid p.1 p.2)
    ∧ (runLoop env pid n i ts c).2.2.notFound
        = c.notFound + (List.enumFrom i ts).countP (fun p => !trackMatched env p.1 p.2)
    ∧ (runLoop env pid n i ts c).2.2.failedToAdd
        = c.failedToAdd + (List.enumFrom i ts).countP
            (fun p => trackMatched env p.1 p.2 && !trackAddSucceeded env pid p.1 p.2)
    ∧ (runLoop env pid n i ts c).2.1.countP isInsertCall
        = (List.enumFrom i ts).countP (fun p => trackMatched env p.1 p.2)
    ∧ (runLoop env pid n i ts c).2.2.added + (runLoop env pid n i ts c).2.2.notFound
          + (runLoop env pid n i ts c).2.2.failedToAdd
        = c.added + c.notFound + c.failedToAdd + ts.length := by
  intro ts
  induction ts with
  | nil => intro i c; simp [runLoop, List.enumFrom]
  | cons t rest ih =>
    intro i c
    obtain ⟨evs, calls, hstep, hcount, -⟩ := trackStep_cont env pid n i t c
    obtain ⟨ha, hnf, hf, hc, hsum⟩ := ih (i + 1)
      { added := c.added + (if trackAddSucceeded env pid i t then 1 else 0),
        notFound := c.notFound + (if trackMatched env i t then 0 else 1),
        failedToAdd := c.failedToAdd
          + (if trackMatched env i t && !trackAddSucceeded env pid i t then 1 else 0) }
    have hASM := trackAddSucceeded_matched env pid i t
    simp only [runLoop, hstep]
    refine ⟨?_, ?_, ?_, ?_, ?_⟩
    · rw [ha]
      dsimp only
      simp only [List.enumFrom, List.countP_cons]
      cases hA : trackAddSucceeded env pid i t <;> simp [hA] <;> omega
    · rw [hnf]
      dsimp only
      simp only [List.enumFrom, List.countP_cons]
      cases hM : trackMatched env i t <;> simp [hM] <;> omega
    · rw [hf]
      dsimp only
      simp only [List.enumFrom, List.countP_cons]
      cases hM : trackMatched env i t <;> cases hA : trackAddSucceeded env pid i t <;>
        simp [hM, hA] <;> omega
    · rw [List.countP_append, hcount, hc]
      simp only [List.enumFrom, List.countP_cons]
      cases hM : trackMatched env i t <;> simp [hM] <;> omega
    · rw [hsum]
      dsimp only
      rw [List.length_cons]
      cases hM : trackMatched env i t <;> cases hA : trackAddSucceeded env pid i t
      · simp [hM, hA]
        omega
      · exact absurd (hASM hA) (by simp [hM])
      · simp [hM, hA]
        omega
      · simp [hM, hA]
        omega

/-- C6: at the end of the per-track loop (as entered by the conversion
stream: index 0, zero counters), `added` equals the number of tracks whose
search returned a video and whose add succeeded; the three counters sum to
the number of tracks, so each fully processed track increments exactly one
of them; and the loop issues exactly one playlist-item insert per matched
track — in particular no track is ever the target of two adds. -/
theorem claim_C6_counters (env : RunEnv) (pid : String) (n : Nat) :
    (runLoop env pid n 0 env.tracks ⟨0, 0, 0⟩).2.2.added
        = (env.tracks.enum).countP (fun p => trackAddSucceeded env pid p.1 p.2)
    ∧ (runLoop env pid n 0 env.tracks ⟨0, 0, 0⟩).2.2.added
          + (runLoop env pid n 0 env.tracks ⟨0, 0, 0⟩).2.2.notFound
          + (runLoop env pid n 0 env.tracks ⟨0, 0, 0⟩).2.2.failedToAdd
        = env.tracks.length
    ∧ (runLoop env pid n 0 env.tracks ⟨0, 0, 0⟩).2.1.countP isInsertCall
        = (env.tracks.enum).countP (fun p => trackMatched env p.1 p.2) := by
  obtain ⟨ha, hnf, hf, hc, hsum⟩ := runLoop_counters env pid n env.tracks 0 ⟨0, 0, 0⟩
  refine ⟨?_, ?_, ?_⟩
  · simpa [List.enum] using ha
  · simpa using hsum
  · simpa [List.enum] using hc

/-- The per-track loop never emits a summary event: summaries come only
from the finalization block. -/
theorem runLoop_no_summary (env : RunEnv) (pid : String) (n : Nat) :
    ∀ (ts : List (String × String)) (i : Nat) (c : Counters),
    ∀ ev ∈ (runLoop env pid n i ts c).1, isSummaryEvent ev = false := by
  intro ts
  induction ts with
  | nil => intro i c ev hev; simp [runLoop] at hev
  | cons t rest ih =>
    intro i c ev hev
    obtain ⟨evs, calls, hstep, -, hnos⟩ := trackStep_cont env pid n i t c
    simp only [runLoop, hstep] at hev
    rcases List.mem_append.mp hev with h1 | h2
    · exact hnos ev h1
    · exact ih (i + 1) _ ev h2

/-- Structure of a finalized conversion stream: any run with a non-empty
track list and a successfully created (truthy) destination playlist
produces its progress events followed by the complete summary block, the
link line for the created playlist, and the end-of-stream marker, whatever
the per-track loop did. -/
theorem stream_finalization_eq (env : RunEnv) (pid : String)
    (htr : env.tracks ≠ []) (hcr : env.createResult = some pid) (hpid : pid ≠ "") :
    (generate_conversion_stream env).1
      = ([Event.fetchingTracks, Event.foundTracks env.tracks.length]
          ++ (if env.nameInput = "" then
                [Event.usingDefaultName
                  (final_playlist_name env.nameInput env.url env.detailsName env.tracks)]
              else [])
          ++ [Event.creatingPlaylist
                (final_playlist_name env.nameInput env.url env.detailsName env.tracks) env.privacy,
              Event.playlistCreated pid, Event.playlistLink pid]
          ++ (runLoop env pid env.tracks.length 0 env.tracks ⟨0, 0, 0⟩).1)
        ++ ([Event.processComplete,
             Event.summaryAdded
               (runLoop env pid env.tracks.length 0 env.tracks ⟨0, 0, 0⟩).2.2.added
               (final_playlist_name env.nameInput env.url env.detailsName env.tracks)]
          ++ (if (runLoop env pid env.tracks.length 0 env.tracks ⟨0, 0, 0⟩).2.2.notFound > 0 then
                [Event.summaryNotFound
                  (runLoop env pid env.tracks.length 0 env.tracks ⟨0, 0, 0⟩).2.2.notFound]
              else [])
          ++ (if (runLoop env pid env.tracks.length 0 env.tracks ⟨0, 0, 0⟩).2.2.failedToAdd > 0 then
                [Event.summaryFailedToAdd
                  (runLoop env pid env.tracks.length 0 env.tracks ⟨0, 0, 0⟩).2.2.failedToAdd]
              else [])
          ++ [Event.summaryLink pid, Event.endOfStream]) := by
  have hempty : env.tracks.isEmpty = false := by
    simp [List.isEmpty_iff, htr]
  simp only [generate_conversion_stream, hempty, hcr]
  rw [if_neg hpid]
  simp [hpid, List.append_assoc]

/-- C3: every conversion run that reaches finalization emits a summary
that contains the `added` count; contains a `not_found` line (with the
final counter value) iff that counter is positive; contains a
`failed_to_add` line iff that counter is positive; contains the link to
the created destination playlist; and is followed by the end-of-stream
marker.  The statement quantifies over every environment, including those
where the loop would abort early. -/
theorem claim_C3_summary (env : RunEnv) (pid : String)
    (htr : env.tracks ≠ []) (hcr : env.createResult = some pid) (hpid : pid ≠ "") :
    Event.summaryAdded (runLoop env pid env.tracks.length 0 env.tracks ⟨0, 0, 0⟩).2.2.added
        (final_playlist_name env.nameInput env.url env.detailsName env.tracks)
      ∈ (generate_conversion_stream env).1
    ∧ (∀ m, Event.summaryNotFound m ∈ (generate_conversion_stream env).1 ↔
        ((runLoop env pid env.tracks.length 0 env.tracks ⟨0, 0, 0⟩).2.2.notFound > 0
          ∧ m = (runLoop env pid env.tracks.length 0 env.tracks ⟨0, 0, 0⟩).2.2.notFound))
    ∧ (∀ m, Event.summaryFailedToAdd m ∈ (generate_conversion_stream env).1 ↔
        ((runLoop env pid env.tracks.length 0 env.tracks ⟨0, 0, 0⟩).2.2.failedToAdd > 0
          ∧ m = (runLoop env pid env.tracks.length 0 env.tracks ⟨0, 0, 0⟩).2.2.failedToAdd))
    ∧ Event.summaryLink pid ∈ (generate_conversion_stream env).1
    ∧ (generate_conversion_stream env).1.getLast? = some Event.endOfStream := by
  have hstream := stream_finalization_eq env pid htr hcr hpid
  have hnos := runLoop_no_summary env pid env.tracks.length env.tracks 0 ⟨0, 0, 0⟩
  refine ⟨?_, ?_, ?_, ?_, ?_⟩
  · rw [hstream]
    simp
  · intro m
    have hr1 : Event.summaryNotFound m ∉ (runLoop env pid env.tracks.length 0 env.tracks ⟨0, 0, 0⟩).1 :=
      fun h => by simpa [isSummaryEvent] using hnos _ h
    rw [hstream]
    by_cases hnf : (runLoop env pid env.tracks.length 0 env.tracks ⟨0, 0, 0⟩).2.2.notFound > 0 <;>
      by_cases hf : (runLoop env pid env.tracks.length 0 env.tracks ⟨0, 0, 0⟩).2.2.failedToAdd > 0 <;>
      by_cases hni : env.nameInput = "" <;>
      simp [hnf, hf, hni, hr1]
  · intro m
    have hr1 : Event.summaryFailedToAdd m ∉ (runLoop env pid env.tracks.length 0 env.tracks ⟨0, 0, 0⟩).1 :=
      fun h => by simpa [isSummaryEvent] using hnos _ h
    rw [hstream]
    by_cases hnf : (runLoop env pid env.tracks.length 0 env.tracks ⟨0, 0, 0⟩).2.2.notFound > 0 <;>
      by_cases hf : (runLoop env pid env.tracks.length 0 env.tracks ⟨0, 0, 0⟩).2.2.failedToAdd > 0 <;>
      by_cases hni : env.nameInput = "" <;>
      simp [hnf, hf, hni, hr1]
  · rw [hstream]
    simp
  · rw [hstream]
    rw [List.getLast?_append_of_ne_nil _ (by simp), List.getLast?_append_of_ne_nil _ (by simp)]
    rfl

/-- C3 witness: the theorem applied to the concrete one-track run that
matches and adds successfully. -/
theorem claim_C3_witness :
    Event.summaryAdded
        (runLoop envOneGoodTrack "PL123" envOneGoodTrack.tracks.length 0
          envOneGoodTrack.tracks ⟨0, 0, 0⟩).2.2.added
        (final_playlist_name envOneGoodTrack.nameInput envOneGoodTrack.url
          envOneGoodTrack.detailsName envOneGoodTrack.tracks)
      ∈ (generate_conversion_stream envOneGoodTrack).1
    ∧ Event.summaryLink "PL123" ∈ (generate_conversion_stream envOneGoodTrack).1 :=
  ⟨(claim_C3_summary envOneGoodTrack "PL123" (by decide) rfl (by decide)).1,
   (claim_C3_summary envOneGoodTrack "PL123" (by decide) rfl (by decide)).2.2.2.1⟩

/-- A successful anchored match decomposes the input as a marker, the
22-character alphanumeric capture, and a remainder. -/
theorem matchPlaylistAt_decomp (l m : List Char) (h : matchPlaylistAt l = some m) :
    ∃ post, (l = "playlist/".data ++ m ++ post ∨ l = "playlist:".data ++ m ++ post)
      ∧ m.length = 22 ∧ m.all isAlnumAscii = true := by
  unfold matchPlaylistAt at h
  split at h
  · rename_i hcond
    obtain ⟨h1, h2, h3⟩ := hcond
    injection h with hm
    refine ⟨(l.drop 9).drop 22, ?_, ?_, ?_⟩
    · have hsplit : l = l.take 9 ++ l.drop 9 := (List.take_append_drop 9 l).symm
      have hsplit2 : l.drop 9 = (l.drop 9).take 22 ++ (l.drop 9).drop 22 :=
        (List.take_append_drop 22 (l.drop 9)).symm
      rcases h1 with h1 | h1
      · left
        rw [← hm, ← h1]
        conv_lhs => rw [hsplit]
        rw [List.append_assoc, ← hsplit2]
      · right
        rw [← hm, ← h1]
        conv_lhs => rw [hsplit]
        rw [List.append_assoc, ← hsplit2]
    · rw [← hm]
      have h2' := h2
      simp only [List.length_take, List.length_drop] at h2' ⊢
      omega
    · rw [← hm]
      exact h3
  · exact absurd h (by simp)

/-- The anchored match succeeds on any input that starts with a marker
followed by a 22-character alphanumeric block, capturing that block. -/
theorem matchPlaylistAt_of_parts (m post : List Char) (hlen : m.length = 22)
    (halnum : m.all isAlnumAscii = true) :
    matchPlaylistAt ("playlist/".data ++ m ++ post) = some m
    ∧ matchPlaylistAt ("playlist:".data ++ m ++ post) = some m := by
  constructor
  · unfold matchPlaylistAt
    rw [List.append_assoc]
    rw [if_pos]
    · rw [List.drop_left' (by rfl), List.take_left' hlen]
    · refine ⟨Or.inl ?_, ?_, ?_⟩
      · rw [List.take_left' (by rfl)]
      · rw [List.drop_left' (by rfl), List.length_append]
        omega
      · rw [List.drop_left' (by rfl), List.take_left' hlen]
        exact halnum
  · unfold matchPlaylistAt
    rw [List.append_assoc]
    rw [if_pos]
    · rw [List.drop_left' (by rfl), List.take_left' hlen]
    · refine ⟨Or.inr ?_, ?_, ?_⟩
      · rw [List.take_left' (by rfl)]
      · rw [List.drop_left' (by rfl), List.length_append]
        omega
      · rw [List.drop_left' (by rfl), List.take_left' hlen]
        exact halnum

/-- The scan succeeds whenever the anchored match succeeds at the head. -/
theorem searchPlaylistPat_isSome_of_matchAt (l : List Char) (h : (matchPlaylistAt l).isSome = true)
    (hne : l ≠ []) : (searchPlaylistPat l).isSome = true := by
  cases l with
  | nil => exact absurd rfl hne
  | cons c tl =>
    rw [searchPlaylistPat]
    cases hm : matchPlaylistAt (c :: tl) with
    | some m => simp
    | none => rw [hm] at h; simp at h

/-- The scan succeeds on a longer input whenever it succeeds on the tail. -/
theorem searchPlaylistPat_isSome_cons (c : Char) (tl : List Char)
    (h : (searchPlaylistPat tl).isSome = true) :
    (searchPlaylistPat (c :: tl)).isSome = true := by
  rw [searchPlaylistPat]
  cases hm : matchPlaylistAt (c :: tl) with
  | some m => simp
  | none => simpa using h

/-- A successful scan decomposes the input around a marker and its
22-character alphanumeric capture. -/
theorem searchPlaylistPat_decomp (l m : List Char) (h : searchPlaylistPat l = some m) :
    ∃ pre post,
      (l = pre ++ "playlist/".data ++ m ++ post ∨ l = pre ++ "playlist:".data ++ m ++ post)
      ∧ m.length = 22 ∧ m.all isAlnumAscii = true := by
  induction l with
  | nil => simp [searchPlaylistPat] at h
  | cons c tl ih =>
    cases hm : matchPlaylistAt (c :: tl) with
    | some m2 =>
      simp only [searchPlaylistPat, hm, Option.some.injEq] at h
      subst h
      obtain ⟨post, hor, hlen, hal⟩ := matchPlaylistAt_decomp _ _ hm
      refine ⟨[], post, ?_, hlen, hal⟩
      simpa using hor
    | none =>
      simp only [searchPlaylistPat, hm] at h
      obtain ⟨pre, post, hor, hlen, hal⟩ := ih h
      refine ⟨c :: pre, post, ?_, hlen, hal⟩
      rcases hor with h1 | h1
      · left
        rw [List.cons_append, List.cons_append, List.cons_append, ← h1]
      · right
        rw [List.cons_append, List.cons_append, List.cons_append, ← h1]

/-- The scan succeeds on any input containing a marker followed by a
22-character alphanumeric block. -/
theorem searchPlaylistPat_of_parts (pid post : List Char) (hlen : pid.length = 22)
    (hal : pid.all isAlnumAscii = true) :
    ∀ (pre l : List Char),
      (l = pre ++ "playlist/".data ++ pid ++ post ∨ l = pre ++ "playlist:".data ++ pid ++ post) →
      (searchPlaylistPat l).isSome = true := by
  intro pre
  induction pre with
  | nil =>
    intro l hor
    have hne : l ≠ [] := by
      rcases hor with h1 | h1 <;> simp [h1]
    refine searchPlaylistPat_isSome_of_matchAt l ?_ hne
    rcases hor with h1 | h1
    · simp only [List.nil_append] at h1
      rw [h1, (matchPlaylistAt_of_parts pid post hlen hal).1]
      simp
    · simp only [List.nil_append] at h1
      rw [h1, (matchPlaylistAt_of_parts pid post hlen hal).2]
      simp
  | cons c pre' ih =>
    intro l hor
    rcases hor with h1 | h1
    · rw [h1, List.cons_append, List.cons_append, List.cons_append]
      exact searchPlaylistPat_isSome_cons c _ (ih _ (Or.inl rfl))
    · rw [h1, List.cons_append, List.cons_append, List.cons_append]
      exact searchPlaylistPat_isSome_cons c _ (ih _ (Or.inr rfl))

/-- C7: the reference scenario URLs resolve as the spec says (playlist URL
with query suffix resolves to its 22-character id, album URL resolves to
nothing); resolution succeeds exactly when the input contains
`playlist/<id>` or `playlist:<id>` or is itself a bare 22-character
alphanumeric token; and any returned identifier is a 22-character
alphanumeric string. -/
theorem claim_C7_extract :
    extract_playlist_id_from_url "https://open.spotify.com/playlist/ABCDEFGHIJKLMNOPQRSTUV?si=xyz".data
      = some "ABCDEFGHIJKLMNOPQRSTUV".data
    ∧ extract_playlist_id_from_url "https://open.spotify.com/album/ABCDEFGHIJKLMNOPQRSTUV".data = none
    ∧ (∀ url : List Char, (extract_playlist_id_from_url url).isSome = true ↔
        (containsPlaylistRef url ∨ (url.length = 22 ∧ url.all isAlnumAscii = true)))
    ∧ (∀ url pid : List Char, extract_playlist_id_from_url url = some pid →
        pid.length = 22 ∧ pid.all isAlnumAscii = true) := by
  refine ⟨by decide, by decide, ?_, ?_⟩
  · intro url
    unfold extract_playlist_id_from_url
    cases hs : searchPlaylistPat url with
    | some m =>
      dsimp only
      constructor
      · intro _
        left
        obtain ⟨pre, post, hor, hlen, hal⟩ := searchPlaylistPat_decomp url m hs
        exact ⟨pre, m, post, hor, hlen, hal⟩
      · intro _
        simp
    | none =>
      dsimp only
      by_cases hb : url.length = 22 ∧ url.all isAlnumAscii = true
      · rw [if_pos hb]
        simp [hb]
      · rw [if_neg hb]
        simp only [Option.isSome_none, Bool.false_eq_true, false_iff]
        rintro (href | hb2)
        · obtain ⟨pre, pid, post, hor, hlen, hal⟩ := href
          have hsome := searchPlaylistPat_of_parts pid post hlen hal pre url hor
          rw [hs] at hsome
          simp at hsome
        · exact absurd hb2 hb
  · intro url pid h
    unfold extract_playlist_id_from_url at h
    cases hs : searchPlaylistPat url with
    | some m =>
      rw [hs] at h
      dsimp only at h
      obtain ⟨-, -, -, hlen, hal⟩ := searchPlaylistPat_decomp url m hs
      injection h with hmp
      rw [← hmp]
      exact ⟨hlen, hal⟩
    | none =>
      rw [hs] at h
      dsimp only at h
      split at h
      · rename_i hcond
        injection h with hup
        rw [← hup]
        exact hcond
      · exact absurd h (by simp)

/-- C7 witness: the theorem applied to the playlist-URL scenario input,
showing the returned identifier is a 22-character alphanumeric token. -/
theorem claim_C7_witness :
    "ABCDEFGHIJKLMNOPQRSTUV".data.length = 22
    ∧ "ABCDEFGHIJKLMNOPQRSTUV".data.all isAlnumAscii = true :=
  claim_C7_extract.2.2.2
    "https://open.spotify.com/playlist/ABCDEFGHIJKLMNOPQRSTUV?si=xyz".data
    "ABCDEFGHIJKLMNOPQRSTUV".data (by decide)

/-- Characters of the collapsed string: each is the replacement space or
a non-whitespace character of the input. -/
theorem collapseWsAux_mem (l : List Char) : ∀ (b : Bool), ∀ c ∈ collapseWsAux b l,
    c = ' ' ∨ (c ∈ l ∧ isSpaceAscii c = false) := by
  induction l with
  | nil => intro b c hc; simp [collapseWsAux] at hc
  | cons a tl ih =>
    intro b c hc
    by_cases ha : isSpaceAscii a = true
    · cases b with
      | true =>
        simp only [collapseWsAux, ha, if_pos] at hc
        rcases ih true c hc with h | ⟨h1, h2⟩
        · exact Or.inl h
        · exact Or.inr ⟨List.mem_cons_of_mem _ h1, h2⟩
      | false =>
        simp only [collapseWsAux, ha, if_pos] at hc
        rcases List.mem_cons.mp hc with rfl | hc2
        · exact Or.inl rfl
        · rcases ih true c hc2 with h | ⟨h1, h2⟩
          · exact Or.inl h
          · exact Or.inr ⟨List.mem_cons_of_mem _ h1, h2⟩
    · simp only [collapseWsAux, ha, if_neg, Bool.not_eq_true] at hc
      rcases List.mem_cons.mp hc with rfl | hc2
      · exact Or.inr ⟨List.mem_cons_self _ _, by simpa using ha⟩
      · rcases ih false c hc2 with h | ⟨h1, h2⟩
        · exact Or.inl h
        · exact Or.inr ⟨List.mem_cons_of_mem _ h1, h2⟩

/-- After a whitespace run has emitted its space, the next emitted
character is not whitespace. -/
theorem collapseWsAux_head_true (l : List Char) :
    ∀ c, (collapseWsAux true l).head? = some c → isSpaceAscii c = false := by
  induction l with
  | nil => intro c hc; simp [collapseWsAux] at hc
  | cons a tl ih =>
    intro c hc
    by_cases ha : isSpaceAscii a = true
    · simp only [collapseWsAux, ha, if_pos] at hc
      exact ih c hc
    · simp only [collapseWsAux, ha, if_neg, Bool.not_eq_true] at hc
      simp only [List.head?_cons, Option.some.injEq] at hc
      rw [← hc]
      simpa using ha

/-- The collapsed string never holds two consecutive spaces. -/
theorem collapseWsAux_chain (l : List Char) : ∀ b : Bool,
    List.Chain' (fun a b => ¬(a = ' ' ∧ b = ' ')) (collapseWsAux b l) := by
  induction l with
  | nil => intro b; simp [collapseWsAux]
  | cons a tl ih =>
    intro b
    by_cases ha : isSpaceAscii a = true
    · cases b with
      | true => simpa [collapseWsAux, ha] using ih true
      | false =>
        simp only [collapseWsAux, ha, if_pos, Bool.false_eq_true, if_false]
        rw [List.chain'_cons']
        refine ⟨?_, ih true⟩
        intro y hy
        rintro ⟨-, hy2⟩
        have := collapseWsAux_head_true tl y (by simpa using hy)
        rw [hy2] at this
        simp [isSpaceAscii] at this
    · simp only [collapseWsAux, ha, if_neg, Bool.not_eq_true]
      rw [List.chain'_cons']
      refine ⟨?_, ih false⟩
      intro y hy
      rintro ⟨ha2, -⟩
      rw [ha2] at ha
      simp [isSpaceAscii] at ha

/-- The first character surviving `dropWhile` fails the predicate. -/
theorem head_dropWhile_not (p : Char → Bool) : ∀ (l : List Char) (c : Char),
    (l.dropWhile p).head? = some c → p c = false := by
  intro l
  induction l with
  | nil => intro c hc; simp [List.dropWhile] at hc
  | cons a tl ih =>
    intro c hc
    by_cases ha : p a = true
    · rw [List.dropWhile_cons_of_pos ha] at hc
      exact ih c hc
    · rw [List.dropWhile_cons_of_neg ha] at hc
      simp only [List.head?_cons, Option.some.injEq] at hc
      rw [← hc]
      simpa using ha

/-- Stripping only removes characters. -/
theorem stripWs_subset (l : List Char) : ∀ c ∈ stripWs l, c ∈ l := by
  intro c hc
  unfold stripWs at hc
  rw [List.mem_reverse] at hc
  have h1 := (List.dropWhile_sublist isSpaceAscii).subset hc
  rw [List.mem_reverse] at h1
  exact (List.dropWhile_sublist isSpaceAscii).subset h1

/-- Stripping preserves the no-two-consecutive-spaces property. -/
theorem stripWs_chain (l : List Char)
    (h : List.Chain' (fun a b => ¬(a = ' ' ∧ b = ' ')) l) :
    List.Chain' (fun a b => ¬(a = ' ' ∧ b = ' ')) (stripWs l) := by
  have hsym : ∀ (a b : Char), (¬(a = ' ' ∧ b = ' ')) → ¬(b = ' ' ∧ a = ' ') :=
    fun a b hab hba => hab ⟨hba.2, hba.1⟩
  unfold stripWs
  have h1 := h.suffix (List.dropWhile_suffix isSpaceAscii)
  have h2 := List.chain'_reverse.mpr (h1.imp hsym)
  have h3 := h2.suffix (List.dropWhile_suffix isSpaceAscii)
  exact List.chain'_reverse.mpr (h3.imp hsym)

/-- The stripped string does not start with whitespace. -/
theorem stripWs_head_not_space (l : List Char) :
    ∀ c, (stripWs l).head? = some c → isSpaceAscii c = false := by
  intro c hc
  obtain ⟨t, ht⟩ := List.dropWhile_suffix (l := (l.dropWhile isSpaceAscii).reverse) isSpaceAscii
  have hd : l.dropWhile isSpaceAscii = stripWs l ++ t.reverse := by
    have h2 := congrArg List.reverse ht
    rw [List.reverse_append, List.reverse_reverse] at h2
    exact h2.symm
  cases hr : stripWs l with
  | nil => rw [hr] at hc; exact absurd hc (by simp)
  | cons x xs =>
    rw [hr] at hc
    simp only [List.head?_cons, Option.some.injEq] at hc
    refine head_dropWhile_not isSpaceAscii l c ?_
    rw [hd, hr, ← hc]
    rfl

/-- Truncation to 100 characters keeps the first character. -/
theorem take100_head (l : List Char) : (l.take 100).head? = l.head? := by
  cases l <;> rfl

/-- C10 (amended): on any string input the sanitized result has length at
most 100, contains only word characters, spaces, hyphens and parentheses,
has no leading whitespace and no two consecutive spaces (trailing
whitespace, however, can survive because truncation runs after stripping —
see the counterexample); a non-string input maps to the fixed fallback
text. -/
theorem claim_C10_amended :
    (∀ s : List Char,
      (sanitize_filename (.str s)).length ≤ 100
      ∧ (∀ c ∈ sanitize_filename (.str s), allowedOutChar c = true)
      ∧ (∀ c, (sanitize_filename (.str s)).head? = some c → isSpaceAscii c = false)
      ∧ List.Chain' (fun a b => ¬(a = ' ' ∧ b = ' ')) (sanitize_filename (.str s)))
    ∧ sanitize_filename PyVal.nonStr = "Invalid Playlist Name".data := by
  refine ⟨?_, rfl⟩
  intro s
  refine ⟨?_, ?_, ?_, ?_⟩
  · simp only [sanitize_filename, List.length_take]
    omega
  · intro c hc
    simp only [sanitize_filename] at hc
    have hc2 : c ∈ stripWs (collapseWs (s.filter keepSanitize)) := List.take_subset _ _ hc
    have hc3 : c ∈ collapseWs (s.filter keepSanitize) := stripWs_subset _ c hc2
    rcases collapseWsAux_mem _ false c hc3 with rfl | ⟨h1, h2⟩
    · simp [allowedOutChar]
    · have hk : keepSanitize c = true := List.of_mem_filter h1
      simp only [keepSanitize, Bool.or_eq_true, decide_eq_true_eq] at hk
      rcases hk with ((((hw | hsp) | hd) | hp1) | hp2)
      · simp [allowedOutChar, hw]
      · exact absurd hsp (by simp [h2])
      · simp [allowedOutChar, hd]
      · simp [allowedOutChar, hp1]
      · simp [allowedOutChar, hp2]
  · intro c hc
    simp only [sanitize_filename] at hc
    rw [take100_head] at hc
    exact stripWs_head_not_space _ c hc
  · simp only [sanitize_filename]
    have hch := stripWs_chain _ (collapseWsAux_chain (s.filter keepSanitize) false)
    rw [show collapseWsAux false (List.filter keepSanitize s)
          = collapseWs (List.filter keepSanitize s) from rfl] at hch
    rw [← List.take_append_drop 100 (stripWs (collapseWs (s.filter keepSanitize)))] at hch
    exact (List.chain'_append.mp hch).1

/-- C10 witness: the amended theorem applied to a concrete short input. -/
theorem claim_C10_witness :
    (sanitize_filename (.str "My Song".data)).length ≤ 100
    ∧ allowedOutChar 'M' = true
    ∧ isSpaceAscii 'M' = false :=
  ⟨(claim_C10_amended.1 "My Song".data).1,
   (claim_C10_amended.1 "My Song".data).2.1 'M' (by decide),
   (claim_C10_amended.1 "My Song".data).2.2.1 'M' (by decide)⟩

end SpotifyToYouTube
